import Mathlib

/-!  Shallow embedding of the kraph in-memory weighted directed graph store
(src/kraph.go) together with proofs about its operations.

Modelling choices.  Go maps are modelled as insertion-ordered association
lists (first match wins on lookup, in-place replacement on update), which
fixes one deterministic iteration order for the loops over maps in
DeleteNode, GetSources, GetTargets and JSON.  The Go float64 weight is
modelled by the exact rational type so that additive accumulation is exact;
the claims under study concern the map and index structure, not
floating-point rounding.  A Go method returning (value, error) becomes a
Lean function returning a pair whose second component is an optional error.
The mutex is not part of the functional state; the lock calls each method
performs are recorded separately by the function lockTrace. -/

namespace Kraph

/-- Node identity.  In the source, ID is an interface with a String method,
nid is a string type, and map keys (interface values) compare equal iff the
underlying strings are equal; identities are therefore modelled as strings,
with the String method the identity function. -/
abbrev ID := String

/-- Source constructor NewNID. -/
def NewNID (s : String) : ID := s

/-- The node type: in the source, the node struct carries only its id. -/
structure Node where
  id : ID
deriving DecidableEq, Repr

/-- Source method GetId. -/
def Node.GetId (n : Node) : ID := n.id

/-- Source constructor NewNode. -/
def NewNode (i : ID) : Node := ⟨i⟩

/-- Edge weight: Go float64, modelled exactly by the rationals. -/
abbrev Wgt := ℚ

/-- Lookup in an association list modelling a Go map. -/
def lookupA {α : Type} (k : ID) : List (ID × α) → Option α
  | [] => none
  | (k2, v) :: rest => if k2 = k then some v else lookupA k rest

/-- Go map write m[k] = v on an association list: replace the binding of k
if present, otherwise append a new binding. -/
def insertA {α : Type} (k : ID) (v : α) : List (ID × α) → List (ID × α)
  | [] => [(k, v)]
  | (k2, v2) :: rest =>
    if k2 = k then (k, v) :: rest else (k2, v2) :: insertA k v rest

/-- Go map deletion delete(m, k) on an association list. -/
def eraseA {α : Type} (k : ID) : List (ID × α) → List (ID × α)
  | [] => []
  | (k2, v2) :: rest =>
    if k2 = k then eraseA k rest else (k2, v2) :: eraseA k rest

/-- Errors produced by the store.  nodeNotFound i models the formatted
error "i does not exist in graph"; edgeNotFound src tgt models the
formatted error "there is no edge from src to tgt" (in GetWeight(id, pid)
the message names pid first, then id). -/
inductive GErr where
  | nodeNotFound (i : ID)
  | edgeNotFound (src tgt : ID)
deriving DecidableEq, Repr

/-- Whether an error is of the node-not-found kind. -/
def GErr.isNodeNotFound : GErr → Bool
  | .nodeNotFound _ => true
  | .edgeNotFound _ _ => false

/-- Adjacency index: a map from ID to a map from ID to weight. -/
abbrev Idx := List (ID × List (ID × Wgt))

/-- The graph store state: the three maps of the Go graph struct. -/
structure Graph where
  nodeList : List (ID × Node)
  nodeSources : Idx
  nodeTargets : Idx
deriving DecidableEq, Repr

/-- Source constructor NewGraph: the empty store. -/
def NewGraph : Graph := ⟨[], [], []⟩

/-- Source method Init: reassigns all three maps to fresh empty maps. -/
def Graph.Init (_ : Graph) : Graph := ⟨[], [], []⟩

/-- Source method GetNodeCount. -/
def Graph.GetNodeCount (g : Graph) : Nat := g.nodeList.length

/-- Source method GetNode: the Go nil result for a missing node is the none
case of the option. -/
def Graph.GetNode (g : Graph) (i : ID) : Option Node := lookupA i g.nodeList

/-- Source method GetNodes: returns the node map. -/
def Graph.GetNodes (g : Graph) : List (ID × Node) := g.nodeList

/-- The unexported membership helper of the source (presence of an id in
the node map). -/
def Graph.IdExist (g : Graph) (i : ID) : Bool := (lookupA i g.nodeList).isSome

/-- Source method AddNode. -/
def Graph.AddNode (g : Graph) (nd : Node) : Graph × Bool :=
  if g.IdExist nd.GetId then (g, false)
  else ({ g with nodeList := insertA nd.GetId nd g.nodeList }, true)

/-- The cascade DeleteNode performs on each adjacency index: delete the
entry keyed by i, then delete i from every remaining inner map. -/
def purge (i : ID) (m : Idx) : Idx :=
  (eraseA i m).map (fun p => (p.1, eraseA i p.2))

/-- Source method DeleteNode. -/
def Graph.DeleteNode (g : Graph) (i : ID) : Graph × Bool :=
  if ! g.IdExist i then (g, false)
  else ({ nodeList := eraseA i g.nodeList,
          nodeSources := purge i g.nodeSources,
          nodeTargets := purge i g.nodeTargets }, true)

/-- The accumulating index update of AddEdge.  Both index blocks of the
source method have exactly this shape, with (outer, inner) instantiated to
(pid, id) for nodeTargets and to (id, pid) for nodeSources: if the outer
map has an inner map and the inner map has a weight, add wgt to it;
an existing inner map without the key receives the binding inner to wgt;
a missing inner map becomes the one-entry map from inner to wgt. -/
def addW (outer inner : ID) (wgt : Wgt) (m : Idx) : Idx :=
  match lookupA outer m with
  | some im =>
    match lookupA inner im with
    | some w => insertA outer (insertA inner (w + wgt) im) m
    | none => insertA outer (insertA inner wgt im) m
  | none => insertA outer [(inner, wgt)] m

/-- The overwriting index update of ReplaceEdge, shaped as in addW but
writing wgt unconditionally. -/
def setW (outer inner : ID) (wgt : Wgt) (m : Idx) : Idx :=
  match lookupA outer m with
  | some im => insertA outer (insertA inner wgt im) m
  | none => insertA outer [(inner, wgt)] m

/-- The index update of DeleteEdge: remove the inner binding when both the
outer entry and the inner binding exist, otherwise leave the index as is. -/
def delW (outer inner : ID) (m : Idx) : Idx :=
  match lookupA outer m with
  | some im =>
    match lookupA inner im with
    | some _ => insertA outer (eraseA inner im) m
    | none => m
  | none => m

/-- Source method AddEdge(id, pid, wgt): after the two existence checks it
writes nodeTargets[pid][id] and nodeSources[id][pid], accumulating onto an
existing weight. -/
def Graph.AddEdge (g : Graph) (id pid : ID) (wgt : Wgt) : Graph × Option GErr :=
  if ! g.IdExist id then (g, some (.nodeNotFound id))
  else if ! g.IdExist pid then (g, some (.nodeNotFound pid))
  else ({ g with nodeTargets := addW pid id wgt g.nodeTargets,
                 nodeSources := addW id pid wgt g.nodeSources }, none)

/-- Source method ReplaceEdge(id, pid, wgt): as AddEdge but overwriting. -/
def Graph.ReplaceEdge (g : Graph) (id pid : ID) (wgt : Wgt) : Graph × Option GErr :=
  if ! g.IdExist id then (g, some (.nodeNotFound id))
  else if ! g.IdExist pid then (g, some (.nodeNotFound pid))
  else ({ g with nodeTargets := setW pid id wgt g.nodeTargets,
                 nodeSources := setW id pid wgt g.nodeSources }, none)

/-- Source method DeleteEdge(id, pid). -/
def Graph.DeleteEdge (g : Graph) (id pid : ID) : Graph × Option GErr :=
  if ! g.IdExist id then (g, some (.nodeNotFound id))
  else if ! g.IdExist pid then (g, some (.nodeNotFound pid))
  else ({ g with nodeTargets := delW pid id g.nodeTargets,
                 nodeSources := delW id pid g.nodeSources }, none)

/-- Source method GetWeight(id, pid): reads nodeSources[id][pid]; on a
missing edge the error message names pid as the edge source and id as the
edge target. -/
def Graph.GetWeight (g : Graph) (id pid : ID) : Wgt × Option GErr :=
  if ! g.IdExist id then (0, some (.nodeNotFound id))
  else if ! g.IdExist pid then (0, some (.nodeNotFound pid))
  else
    match lookupA id g.nodeSources with
    | some sm =>
      match lookupA pid sm with
      | some w => (w, none)
      | none => (0, some (.edgeNotFound pid id))
    | none => (0, some (.edgeNotFound pid id))

/-- Source method GetSources(id): the keys of nodeSources[id], each mapped
to the (possibly missing) node it denotes in the node map. -/
def Graph.GetSources (g : Graph) (i : ID) : List (ID × Option Node) × Option GErr :=
  if ! g.IdExist i then ([], some (.nodeNotFound i))
  else
    match lookupA i g.nodeSources with
    | some sm => (sm.map (fun p => (p.1, lookupA p.1 g.nodeList)), none)
    | none => ([], none)

/-- Source method GetTargets(pid): the keys of nodeTargets[pid], each
mapped to the node it denotes in the node map. -/
def Graph.GetTargets (g : Graph) (pid : ID) : List (ID × Option Node) × Option GErr :=
  if ! g.IdExist pid then ([], some (.nodeNotFound pid))
  else
    match lookupA pid g.nodeTargets with
    | some tm => (tm.map (fun p => (p.1, lookupA p.1 g.nodeList)), none)
    | none => ([], none)

/-- Source method JSON, up to JSON text encoding: the result map built by
the double loop over the node map and over GetSources of each node.  The
line writing an already-present outer entry uses the outer id itself as the
inner key, exactly as the source line rs[id.String()][id.String()] = wgt
does.  Since identities are strings, the String call is the identity. -/
def Graph.JSON (g : Graph) : List (String × List (String × Wgt)) :=
  g.nodeList.foldl (fun rs p =>
    match g.GetSources p.1 with
    | (_, some _) => rs
    | (smap, none) =>
      smap.foldl (fun rs2 q =>
        match g.GetWeight p.1 q.1 with
        | (wgt, none) =>
          match lookupA p.1 rs2 with
          | some inner => insertA p.1 (insertA p.1 wgt inner) rs2
          | none => insertA p.1 [(q.1, wgt)] rs2
        | (_, some _) => rs2) rs) []

/-- Weight recorded in index m under outer key a and inner key b. -/
def lookup2 (a b : ID) (m : Idx) : Option Wgt :=
  match lookupA a m with
  | some im => lookupA b im
  | none => none

/-- One public mutating call with its arguments, used to describe reachable
states and per-method lock behavior. -/
inductive Op where
  | init : Op
  | addNode (nd : Node) : Op
  | deleteNode (i : ID) : Op
  | addEdge (id pid : ID) (wgt : Wgt) : Op
  | replaceEdge (id pid : ID) (wgt : Wgt) : Op
  | deleteEdge (id pid : ID) : Op

/-- State transition of one public mutating call (returned values dropped;
query methods do not change the state). -/
def Graph.step (g : Graph) : Op → Graph
  | .init => g.Init
  | .addNode nd => (g.AddNode nd).1
  | .deleteNode i => (g.DeleteNode i).1
  | .addEdge id pid w => (g.AddEdge id pid w).1
  | .replaceEdge id pid w => (g.ReplaceEdge id pid w).1
  | .deleteEdge id pid => (g.DeleteEdge id pid).1

/-- States reachable from a fresh store by public operations. -/
inductive Reachable : Graph → Prop where
  | new : Reachable NewGraph
  | step {g : Graph} (h : Reachable g) (op : Op) : Reachable (g.step op)

/-- Events on the single mutex of the store. -/
inductive LockEv where
  | acquireW
  | releaseW
deriving DecidableEq, Repr

/-- Mutex operations performed by each mutating method, read directly off
the method bodies of the source: AddNode, DeleteNode, AddEdge, ReplaceEdge
and DeleteEdge each run mu.Lock() on entry with a deferred mu.Unlock() at
return; Init performs no lock operation at all. -/
def lockTrace : Op → List LockEv
  | .init => []
  | .addNode _ => [.acquireW, .releaseW]
  | .deleteNode _ => [.acquireW, .releaseW]
  | .addEdge _ _ _ => [.acquireW, .releaseW]
  | .replaceEdge _ _ _ => [.acquireW, .releaseW]
  | .deleteEdge _ _ => [.acquireW, .releaseW]

/-- Fold of successive AddEdge calls with the same ordered arguments, used
to state the accumulation property. -/
def Graph.AddEdges (g : Graph) (id pid : ID) (ws : List Wgt) : Graph :=
  ws.foldl (fun h w => (h.AddEdge id pid w).1) g

/-- The two adjacency indices are exact mirror images at the level of
recorded pairs and weights. -/
def Mirror (g : Graph) : Prop :=
  ∀ a b, lookup2 a b g.nodeTargets = lookup2 b a g.nodeSources

/-- An id occurs in an index as an outer key or as an inner key. -/
def keyInIdx (x : ID) (m : Idx) : Prop :=
  ∃ p ∈ m, p.1 = x ∨ ∃ q ∈ p.2, q.1 = x

instance (x : ID) (m : Idx) : Decidable (keyInIdx x m) :=
  List.decidableBEx _ m

/-- Every id used in either adjacency index is a key of the node map. -/
def KeyClosed (g : Graph) : Prop :=
  ∀ x, keyInIdx x g.nodeTargets ∨ keyInIdx x g.nodeSources → g.IdExist x = true

/-- Concrete store with nodes a and b and no edges. -/
def gAB : Graph := ((NewGraph.AddNode ⟨"a"⟩).1.AddNode ⟨"b"⟩).1

/-- Concrete store with the single node a. -/
def gA : Graph := (NewGraph.AddNode ⟨"a"⟩).1

/-- Concrete store with nodes a, b, c and no edges. -/
def gABC : Graph := (((NewGraph.AddNode ⟨"a"⟩).1.AddNode ⟨"b"⟩).1.AddNode ⟨"c"⟩).1

/-- Concrete store with nodes a, b and the call AddEdge(a, b, 5) applied. -/
def gABe5 : Graph := (((NewGraph.AddNode ⟨"a"⟩).1.AddNode ⟨"b"⟩).1.AddEdge "a" "b" 5).1

/-- Concrete store built through the step relation: nodes a, b and the call
AddEdge(a, b, 5), written so that reachability is immediate. -/
def gABe5step : Graph :=
  ((NewGraph.step (Op.addNode ⟨"a"⟩)).step (Op.addNode ⟨"b"⟩)).step
    (Op.addEdge "a" "b" 5)

/-- Concrete store built through the step relation: nodes a, b and the call
AddEdge(a, b, 2). -/
def gABe2step : Graph :=
  ((NewGraph.step (Op.addNode ⟨"a"⟩)).step (Op.addNode ⟨"b"⟩)).step
    (Op.addEdge "a" "b" 2)

/-- Concrete store with nodes a, b, c and the calls AddEdge(a, b, 12) and
AddEdge(a, c, 7): node a then has the two upstream neighbors b and c, so
serialization takes the branch that writes the self-keyed inner entry. -/
def gJSON : Graph :=
  (((((NewGraph.AddNode ⟨"a"⟩).1.AddNode ⟨"b"⟩).1.AddNode
    ⟨"c"⟩).1.AddEdge "a" "b" 12).1.AddEdge "a" "c" 7).1

/-! ### Association-list lemmas -/

theorem lookupA_insertA_self {α : Type} (k : ID) (v : α) (l : List (ID × α)) :
    lookupA k (insertA k v l) = some v := by
  induction l with
  | nil => simp [insertA, lookupA]
  | cons hd tl ih =>
    obtain ⟨k2, v2⟩ := hd
    by_cases h : k2 = k
    · subst h; simp [insertA, lookupA]
    · simp [insertA, lookupA, h, ih]

theorem lookupA_insertA_ne {α : Type} {j k : ID} (h : j ≠ k) (v : α)
    (l : List (ID × α)) : lookupA j (insertA k v l) = lookupA j l := by
  induction l with
  | nil => simp [insertA, lookupA, Ne.symm h]
  | cons hd tl ih =>
    obtain ⟨k2, v2⟩ := hd
    by_cases h2 : k2 = k
    · subst h2; simp [insertA, lookupA, Ne.symm h]
    · by_cases h3 : k2 = j
      · subst h3; simp [insertA, lookupA, h2]
      · simp [insertA, lookupA, h2, h3, ih]

theorem lookupA_eraseA_self {α : Type} (k : ID) (l : List (ID × α)) :
    lookupA k (eraseA k l) = none := by
  induction l with
  | nil => simp [eraseA, lookupA]
  | cons hd tl ih =>
    obtain ⟨k2, v2⟩ := hd
    by_cases h : k2 = k
    · subst h; simp [eraseA, ih]
    · simp [eraseA, lookupA, h, ih]

theorem lookupA_eraseA_ne {α : Type} {j k : ID} (h : j ≠ k)
    (l : List (ID × α)) : lookupA j (eraseA k l) = lookupA j l := by
  induction l with
  | nil => simp [eraseA]
  | cons hd tl ih =>
    obtain ⟨k2, v2⟩ := hd
    by_cases h2 : k2 = k
    · subst h2; simp [eraseA, lookupA, Ne.symm h, ih]
    · by_cases h3 : k2 = j
      · subst h3; simp [eraseA, lookupA, h2]
      · simp [eraseA, lookupA, h2, h3, ih]

theorem length_insertA_of_none {α : Type} {k : ID} {l : List (ID × α)}
    (h : lookupA k l = none) (v : α) :
    (insertA k v l).length = l.length + 1 := by
  induction l with
  | nil => simp [insertA]
  | cons hd tl ih =>
    obtain ⟨k2, v2⟩ := hd
    by_cases h2 : k2 = k
    · subst h2; simp [lookupA] at h
    · simp [lookupA, h2] at h
      simp [insertA, h2, ih h]

theorem mem_of_lookupA_some {α : Type} {k : ID} {v : α} {l : List (ID × α)}
    (h : lookupA k l = some v) : (k, v) ∈ l := by
  induction l with
  | nil => simp [lookupA] at h
  | cons hd tl ih =>
    obtain ⟨k2, v2⟩ := hd
    by_cases h2 : k2 = k
    · subst h2
      simp [lookupA] at h
      simp [h]
    · simp [lookupA, h2] at h
      simp [ih h]

theorem mem_insertA {α : Type} {p : ID × α} {k : ID} {v : α}
    {l : List (ID × α)} (h : p ∈ insertA k v l) : p = (k, v) ∨ p ∈ l := by
  induction l with
  | nil => simpa [insertA] using h
  | cons hd tl ih =>
    obtain ⟨k2, v2⟩ := hd
    by_cases h2 : k2 = k
    · subst h2
      simp [insertA] at h
      rcases h with h | h
      · exact Or.inl h
      · exact Or.inr (by simp [h])
    · simp [insertA, h2] at h
      rcases h with h | h
      · exact Or.inr (by simp [h])
      · rcases ih h with h3 | h3
        · exact Or.inl h3
        · exact Or.inr (by simp [h3])

theorem mem_eraseA {α : Type} {p : ID × α} {k : ID} {l : List (ID × α)}
    (h : p ∈ eraseA k l) : p ∈ l ∧ p.1 ≠ k := by
  induction l with
  | nil => simp [eraseA] at h
  | cons hd tl ih =>
    obtain ⟨k2, v2⟩ := hd
    by_cases h2 : k2 = k
    · subst h2
      simp [eraseA] at h
      obtain ⟨h3, h4⟩ := ih h
      exact ⟨by simp [h3], h4⟩
    · simp [eraseA, h2] at h
      rcases h with h | h
      · refine ⟨by simp [h], ?_⟩
        rw [h]
        exact h2
      · obtain ⟨h3, h4⟩ := ih h
        exact ⟨by simp [h3], h4⟩

theorem lookupA_mapval {α β : Type} (f : α → β) (k : ID) (l : List (ID × α)) :
    lookupA k (l.map (fun p => (p.1, f p.2))) = (lookupA k l).map f := by
  induction l with
  | nil => simp [lookupA]
  | cons hd tl ih =>
    obtain ⟨k2, v2⟩ := hd
    by_cases h : k2 = k
    · subst h; simp [lookupA]
    · simp [lookupA, h, ih]

theorem keys_of_lookupA_some {α : Type} {k : ID} {v : α} {l : List (ID × α)}
    (h : lookupA k l = some v) : k ∈ l.map Prod.fst := by
  have := mem_of_lookupA_some h
  exact List.mem_map.mpr ⟨(k, v), this, rfl⟩

theorem isSome_lookupA_insertA {α : Type} {x : ID} {l : List (ID × α)}
    (k : ID) (v : α) (h : (lookupA x l).isSome) :
    (lookupA x (insertA k v l)).isSome := by
  by_cases h2 : x = k
  · subst h2; simp [lookupA_insertA_self]
  · rwa [lookupA_insertA_ne h2]

/-! ### Pairwise characterization of the index updates -/

theorem lookup2_insertA (o : ID) (im2 : List (ID × Wgt)) (m : Idx) (a b : ID) :
    lookup2 a b (insertA o im2 m) =
      if a = o then lookupA b im2 else lookup2 a b m := by
  unfold lookup2
  by_cases h : a = o
  · subst h; rw [lookupA_insertA_self]; simp
  · rw [lookupA_insertA_ne h]; simp [h]

theorem addW_none {m : Idx} (o i : ID) (w : Wgt) (hm : lookupA o m = none) :
    addW o i w m = insertA o [(i, w)] m := by
  simp only [addW, hm]

theorem addW_some_none {m : Idx} {im : List (ID × Wgt)} (o i : ID) (w : Wgt)
    (hm : lookupA o m = some im) (hw : lookupA i im = none) :
    addW o i w m = insertA o (insertA i w im) m := by
  simp only [addW, hm, hw]

theorem addW_some_some {m : Idx} {im : List (ID × Wgt)} {w0 : Wgt} (o i : ID)
    (w : Wgt) (hm : lookupA o m = some im) (hw : lookupA i im = some w0) :
    addW o i w m = insertA o (insertA i (w0 + w) im) m := by
  simp only [addW, hm, hw]

theorem setW_none {m : Idx} (o i : ID) (w : Wgt) (hm : lookupA o m = none) :
    setW o i w m = insertA o [(i, w)] m := by
  simp only [setW, hm]

theorem setW_some {m : Idx} {im : List (ID × Wgt)} (o i : ID) (w : Wgt)
    (hm : lookupA o m = some im) :
    setW o i w m = insertA o (insertA i w im) m := by
  simp only [setW, hm]

theorem delW_none {m : Idx} (o i : ID) (hm : lookupA o m = none) :
    delW o i m = m := by
  simp only [delW, hm]

theorem delW_some_none {m : Idx} {im : List (ID × Wgt)} (o i : ID)
    (hm : lookupA o m = some im) (hw : lookupA i im = none) :
    delW o i m = m := by
  simp only [delW, hm, hw]

theorem delW_some_some {m : Idx} {im : List (ID × Wgt)} {w0 : Wgt} (o i : ID)
    (hm : lookupA o m = some im) (hw : lookupA i im = some w0) :
    delW o i m = insertA o (eraseA i im) m := by
  simp only [delW, hm, hw]

theorem lookup2_addW (o i : ID) (w : Wgt) (m : Idx) (a b : ID) :
    lookup2 a b (addW o i w m) =
      if a = o ∧ b = i then some ((lookup2 o i m).getD 0 + w)
      else lookup2 a b m := by
  cases hm : lookupA o m with
  | none =>
    rw [addW_none o i w hm, lookup2_insertA]
    by_cases ha : a = o
    · subst ha
      by_cases hb : b = i
      · subst hb; simp [lookupA, lookup2, hm]
      · simp [lookupA, lookup2, hm, hb, Ne.symm hb]
    · simp [ha]
  | some im =>
    cases hw : lookupA i im with
    | none =>
      rw [addW_some_none o i w hm hw, lookup2_insertA]
      by_cases ha : a = o
      · subst ha
        by_cases hb : b = i
        · subst hb; simp [lookupA_insertA_self, lookup2, hm, hw]
        · simp [lookupA_insertA_ne hb, lookup2, hm, hb]
      · simp [ha]
    | some w0 =>
      rw [addW_some_some o i w hm hw, lookup2_insertA]
      by_cases ha : a = o
      · subst ha
        by_cases hb : b = i
        · subst hb; simp [lookupA_insertA_self, lookup2, hm, hw]
        · simp [lookupA_insertA_ne hb, lookup2, hm, hb]
      · simp [ha]

theorem lookup2_setW (o i : ID) (w : Wgt) (m : Idx) (a b : ID) :
    lookup2 a b (setW o i w m) =
      if a = o ∧ b = i then some w else lookup2 a b m := by
  cases hm : lookupA o m with
  | none =>
    rw [setW_none o i w hm, lookup2_insertA]
    by_cases ha : a = o
    · subst ha
      by_cases hb : b = i
      · subst hb; simp [lookupA]
      · simp [lookupA, lookup2, hm, hb, Ne.symm hb]
    · simp [ha]
  | some im =>
    rw [setW_some o i w hm, lookup2_insertA]
    by_cases ha : a = o
    · subst ha
      by_cases hb : b = i
      · subst hb; simp [lookupA_insertA_self]
      · simp [lookupA_insertA_ne hb, lookup2, hm, hb]
    · simp [ha]

theorem lookup2_delW (o i : ID) (m : Idx) (a b : ID) :
    lookup2 a b (delW o i m) =
      if a = o ∧ b = i then none else lookup2 a b m := by
  cases hm : lookupA o m with
  | none =>
    rw [delW_none o i hm]
    by_cases ha : a = o
    · subst ha
      by_cases hb : b = i
      · subst hb; simp [lookup2, hm]
      · simp [lookup2, hm, hb]
    · simp [ha]
  | some im =>
    cases hw : lookupA i im with
    | none =>
      rw [delW_some_none o i hm hw]
      by_cases ha : a = o
      · subst ha
        by_cases hb : b = i
        · subst hb; simp [lookup2, hm, hw]
        · simp [lookup2, hm, hb]
      · simp [ha]
    | some w0 =>
      rw [delW_some_some o i hm hw, lookup2_insertA]
      by_cases ha : a = o
      · subst ha
        by_cases hb : b = i
        · subst hb; simp [lookupA_eraseA_self]
        · simp [lookupA_eraseA_ne hb, lookup2, hm, hb]
      · simp [ha]

theorem lookup2_purge (i : ID) (m : Idx) (a b : ID) :
    lookup2 a b (purge i m) =
      if a = i ∨ b = i then none else lookup2 a b m := by
  unfold purge lookup2
  rw [lookupA_mapval]
  by_cases ha : a = i
  · subst ha; simp [lookupA_eraseA_self]
  · rw [lookupA_eraseA_ne ha]
    cases hm : lookupA a m with
    | none => simp [ha]
    | some im =>
      by_cases hb : b = i
      · subst hb; simp [lookupA_eraseA_self, ha]
      · simp [lookupA_eraseA_ne hb, ha, hb]

/-! ### Branch lemmas for the public operations -/

theorem AddNode_dup {g : Graph} {nd : Node} (h : g.IdExist nd.GetId = true) :
    g.AddNode nd = (g, false) := by
  simp [Graph.AddNode, h]

theorem AddNode_new {g : Graph} {nd : Node} (h : g.IdExist nd.GetId = false) :
    g.AddNode nd =
      ({ g with nodeList := insertA nd.GetId nd g.nodeList }, true) := by
  simp [Graph.AddNode, h]

theorem DeleteNode_absent {g : Graph} {i : ID} (h : g.IdExist i = false) :
    g.DeleteNode i = (g, false) := by
  simp [Graph.DeleteNode, h]

theorem DeleteNode_present {g : Graph} {i : ID} (h : g.IdExist i = true) :
    g.DeleteNode i =
      ({ nodeList := eraseA i g.nodeList,
         nodeSources := purge i g.nodeSources,
         nodeTargets := purge i g.nodeTargets }, true) := by
  simp [Graph.DeleteNode, h]

theorem AddEdge_ok {g : Graph} {u v : ID} (w : Wgt)
    (hu : g.IdExist u = true) (hv : g.IdExist v = true) :
    g.AddEdge u v w =
      ({ g with nodeTargets := addW v u w g.nodeTargets,
                nodeSources := addW u v w g.nodeSources }, none) := by
  simp [Graph.AddEdge, hu, hv]

theorem AddEdge_err1 {g : Graph} {u : ID} (v : ID) (w : Wgt)
    (hu : g.IdExist u = false) :
    g.AddEdge u v w = (g, some (.nodeNotFound u)) := by
  simp [Graph.AddEdge, hu]

theorem AddEdge_err2 {g : Graph} {u v : ID} (w : Wgt)
    (hu : g.IdExist u = true) (hv : g.IdExist v = false) :
    g.AddEdge u v w = (g, some (.nodeNotFound v)) := by
  simp [Graph.AddEdge, hu, hv]

theorem ReplaceEdge_ok {g : Graph} {u v : ID} (w : Wgt)
    (hu : g.IdExist u = true) (hv : g.IdExist v = true) :
    g.ReplaceEdge u v w =
      ({ g with nodeTargets := setW v u w g.nodeTargets,
                nodeSources := setW u v w g.nodeSources }, none) := by
  simp [Graph.ReplaceEdge, hu, hv]

theorem ReplaceEdge_err1 {g : Graph} {u : ID} (v : ID) (w : Wgt)
    (hu : g.IdExist u = false) :
    g.ReplaceEdge u v w = (g, some (.nodeNotFound u)) := by
  simp [Graph.ReplaceEdge, hu]

theorem ReplaceEdge_err2 {g : Graph} {u v : ID} (w : Wgt)
    (hu : g.IdExist u = true) (hv : g.IdExist v = false) :
    g.ReplaceEdge u v w = (g, some (.nodeNotFound v)) := by
  simp [Graph.ReplaceEdge, hu, hv]

theorem DeleteEdge_ok {g : Graph} {u v : ID}
    (hu : g.IdExist u = true) (hv : g.IdExist v = true) :
    g.DeleteEdge u v =
      ({ g with nodeTargets := delW v u g.nodeTargets,
                nodeSources := delW u v g.nodeSources }, none) := by
  simp [Graph.DeleteEdge, hu, hv]

theorem DeleteEdge_err1 {g : Graph} {u : ID} (v : ID)
    (hu : g.IdExist u = false) :
    g.DeleteEdge u v = (g, some (.nodeNotFound u)) := by
  simp [Graph.DeleteEdge, hu]

theorem DeleteEdge_err2 {g : Graph} {u v : ID}
    (hu : g.IdExist u = true) (hv : g.IdExist v = false) :
    g.DeleteEdge u v = (g, some (.nodeNotFound v)) := by
  simp [Graph.DeleteEdge, hu, hv]

theorem AddEdge_nodeList (g : Graph) (u v : ID) (w : Wgt) :
    (g.AddEdge u v w).1.nodeList = g.nodeList := by
  cases hu : g.IdExist u with
  | false => rw [AddEdge_err1 v w hu]
  | true =>
    cases hv : g.IdExist v with
    | false => rw [AddEdge_err2 w hu hv]
    | true => rw [AddEdge_ok w hu hv]

theorem ReplaceEdge_nodeList (g : Graph) (u v : ID) (w : Wgt) :
    (g.ReplaceEdge u v w).1.nodeList = g.nodeList := by
  cases hu : g.IdExist u with
  | false => rw [ReplaceEdge_err1 v w hu]
  | true =>
    cases hv : g.IdExist v with
    | false => rw [ReplaceEdge_err2 w hu hv]
    | true => rw [ReplaceEdge_ok w hu hv]

theorem DeleteEdge_nodeList (g : Graph) (u v : ID) :
    (g.DeleteEdge u v).1.nodeList = g.nodeList := by
  cases hu : g.IdExist u with
  | false => rw [DeleteEdge_err1 v hu]
  | true =>
    cases hv : g.IdExist v with
    | false => rw [DeleteEdge_err2 hu hv]
    | true => rw [DeleteEdge_ok hu hv]

theorem AddEdge_ok_iff (g : Graph) (u v : ID) (w : Wgt) :
    (g.AddEdge u v w).2 = none ↔
      g.IdExist u = true ∧ g.IdExist v = true := by
  cases hu : g.IdExist u with
  | false => rw [AddEdge_err1 v w hu]; simp
  | true =>
    cases hv : g.IdExist v with
    | false => rw [AddEdge_err2 w hu hv]; simp
    | true => rw [AddEdge_ok w hu hv]; simp

theorem ReplaceEdge_ok_iff (g : Graph) (u v : ID) (w : Wgt) :
    (g.ReplaceEdge u v w).2 = none ↔
      g.IdExist u = true ∧ g.IdExist v = true := by
  cases hu : g.IdExist u with
  | false => rw [ReplaceEdge_err1 v w hu]; simp
  | true =>
    cases hv : g.IdExist v with
    | false => rw [ReplaceEdge_err2 w hu hv]; simp
    | true => rw [ReplaceEdge_ok w hu hv]; simp

theorem DeleteEdge_ok_iff (g : Graph) (u v : ID) :
    (g.DeleteEdge u v).2 = none ↔
      g.IdExist u = true ∧ g.IdExist v = true := by
  cases hu : g.IdExist u with
  | false => rw [DeleteEdge_err1 v hu]; simp
  | true =>
    cases hv : g.IdExist v with
    | false => rw [DeleteEdge_err2 hu hv]; simp
    | true => rw [DeleteEdge_ok hu hv]; simp

theorem GetWeight_found {g : Graph} {u v : ID} {w : Wgt}
    (hu : g.IdExist u = true) (hv : g.IdExist v = true)
    (hw : lookup2 u v g.nodeSources = some w) :
    g.GetWeight u v = (w, none) := by
  unfold lookup2 at hw
  cases hm : lookupA u g.nodeSources with
  | none => rw [hm] at hw; simp at hw
  | some sm =>
    rw [hm] at hw
    simp only at hw
    simp only [Graph.GetWeight, hu, hv, hm]
    simp [hw]

theorem GetWeight_noEdge {g : Graph} {u v : ID}
    (hu : g.IdExist u = true) (hv : g.IdExist v = true)
    (hw : lookup2 u v g.nodeSources = none) :
    g.GetWeight u v = (0, some (.edgeNotFound v u)) := by
  unfold lookup2 at hw
  cases hm : lookupA u g.nodeSources with
  | none => simp [Graph.GetWeight, hu, hv, hm]
  | some sm =>
    rw [hm] at hw
    simp only at hw
    simp only [Graph.GetWeight, hu, hv, hm]
    simp [hw]

theorem GetWeight_err1 {g : Graph} {u : ID} (v : ID)
    (hu : g.IdExist u = false) :
    g.GetWeight u v = (0, some (.nodeNotFound u)) := by
  simp [Graph.GetWeight, hu]

theorem GetWeight_err2 {g : Graph} {u v : ID}
    (hu : g.IdExist u = true) (hv : g.IdExist v = false) :
    g.GetWeight u v = (0, some (.nodeNotFound v)) := by
  simp [Graph.GetWeight, hu, hv]

theorem AddEdge_IdExist (g : Graph) (u v : ID) (w : Wgt) (x : ID) :
    (g.AddEdge u v w).1.IdExist x = g.IdExist x := by
  unfold Graph.IdExist
  rw [AddEdge_nodeList]

theorem ReplaceEdge_IdExist (g : Graph) (u v : ID) (w : Wgt) (x : ID) :
    (g.ReplaceEdge u v w).1.IdExist x = g.IdExist x := by
  unfold Graph.IdExist
  rw [ReplaceEdge_nodeList]

theorem DeleteEdge_IdExist (g : Graph) (u v : ID) (x : ID) :
    (g.DeleteEdge u v).1.IdExist x = g.IdExist x := by
  unfold Graph.IdExist
  rw [DeleteEdge_nodeList]

/-! ### The mirror invariant (claim C3) -/

theorem Mirror_NewGraph : Mirror NewGraph := by
  intro a b
  simp [NewGraph, lookup2, lookupA]

theorem Mirror_addNode {g : Graph} (h : Mirror g) (nd : Node) :
    Mirror ((g.AddNode nd).1) := by
  cases he : g.IdExist nd.GetId with
  | false => rw [AddNode_new he]; exact h
  | true => rw [AddNode_dup he]; exact h

theorem Mirror_deleteNode {g : Graph} (h : Mirror g) (i : ID) :
    Mirror ((g.DeleteNode i).1) := by
  cases he : g.IdExist i with
  | false => rw [DeleteNode_absent he]; exact h
  | true =>
    rw [DeleteNode_present he]
    intro a b
    simp only [lookup2_purge]
    by_cases ha : a = i <;> by_cases hb : b = i <;> simp [ha, hb, h a b]

theorem Mirror_addEdge {g : Graph} (h : Mirror g) (u v : ID) (w : Wgt) :
    Mirror ((g.AddEdge u v w).1) := by
  cases hu : g.IdExist u with
  | false => rw [AddEdge_err1 v w hu]; exact h
  | true =>
    cases hv : g.IdExist v with
    | false => rw [AddEdge_err2 w hu hv]; exact h
    | true =>
      rw [AddEdge_ok w hu hv]
      intro a b
      simp only [lookup2_addW]
      by_cases ha : a = v <;> by_cases hb : b = u <;>
        simp [ha, hb, h v u, h a b, h v b, h a u]

theorem Mirror_replaceEdge {g : Graph} (h : Mirror g) (u v : ID) (w : Wgt) :
    Mirror ((g.ReplaceEdge u v w).1) := by
  cases hu : g.IdExist u with
  | false => rw [ReplaceEdge_err1 v w hu]; exact h
  | true =>
    cases hv : g.IdExist v with
    | false => rw [ReplaceEdge_err2 w hu hv]; exact h
    | true =>
      rw [ReplaceEdge_ok w hu hv]
      intro a b
      simp only [lookup2_setW]
      by_cases ha : a = v <;> by_cases hb : b = u <;>
        simp [ha, hb, h a b, h v b, h a u]

theorem Mirror_deleteEdge {g : Graph} (h : Mirror g) (u v : ID) :
    Mirror ((g.DeleteEdge u v).1) := by
  cases hu : g.IdExist u with
  | false => rw [DeleteEdge_err1 v hu]; exact h
  | true =>
    cases hv : g.IdExist v with
    | false => rw [DeleteEdge_err2 hu hv]; exact h
    | true =>
      rw [DeleteEdge_ok hu hv]
      intro a b
      simp only [lookup2_delW]
      by_cases ha : a = v <;> by_cases hb : b = u <;>
        simp [ha, hb, h a b, h v b, h a u]

theorem Mirror_step {g : Graph} (h : Mirror g) (op : Op) :
    Mirror (g.step op) := by
  cases op with
  | init => intro a b; simp [Graph.step, Graph.Init, lookup2, lookupA]
  | addNode nd => exact Mirror_addNode h nd
  | deleteNode i => exact Mirror_deleteNode h i
  | addEdge u v w => exact Mirror_addEdge h u v w
  | replaceEdge u v w => exact Mirror_replaceEdge h u v w
  | deleteEdge u v => exact Mirror_deleteEdge h u v

theorem Reachable_Mirror {g : Graph} (h : Reachable g) : Mirror g := by
  induction h with
  | new => exact Mirror_NewGraph
  | step h2 op ih => exact Mirror_step ih op

/-! ### The key-closure invariant (claim C4) -/

theorem keyInIdx_insertA {x o : ID} {im2 : List (ID × Wgt)} {m : Idx}
    (h : keyInIdx x (insertA o im2 m)) :
    x = o ∨ (∃ q ∈ im2, q.1 = x) ∨ keyInIdx x m := by
  obtain ⟨p, hp, hx⟩ := h
  rcases mem_insertA hp with h1 | h1
  · subst h1
    rcases hx with hx | hx
    · exact Or.inl hx.symm
    · exact Or.inr (Or.inl hx)
  · exact Or.inr (Or.inr ⟨p, h1, hx⟩)

theorem keyInIdx_of_inner {x o : ID} {im : List (ID × Wgt)} {m : Idx}
    (hm : lookupA o m = some im) (h : ∃ q ∈ im, q.1 = x) : keyInIdx x m :=
  ⟨(o, im), mem_of_lookupA_some hm, Or.inr h⟩

theorem keyInIdx_of_outer {x : ID} {im : List (ID × Wgt)} {m : Idx}
    (hm : lookupA x m = some im) : keyInIdx x m :=
  ⟨(x, im), mem_of_lookupA_some hm, Or.inl rfl⟩

theorem keyInIdx_addW {x o i : ID} {w : Wgt} {m : Idx}
    (h : keyInIdx x (addW o i w m)) : x = o ∨ x = i ∨ keyInIdx x m := by
  cases hm : lookupA o m with
  | none =>
    rw [addW_none o i w hm] at h
    rcases keyInIdx_insertA h with h1 | h1 | h1
    · exact Or.inl h1
    · obtain ⟨q, hq, hq2⟩ := h1
      simp at hq
      subst hq
      exact Or.inr (Or.inl hq2.symm)
    · exact Or.inr (Or.inr h1)
  | some im =>
    cases hw : lookupA i im with
    | none =>
      rw [addW_some_none o i w hm hw] at h
      rcases keyInIdx_insertA h with h1 | h1 | h1
      · exact Or.inl h1
      · obtain ⟨q, hq, hq2⟩ := h1
        rcases mem_insertA hq with h2 | h2
        · subst h2; exact Or.inr (Or.inl hq2.symm)
        · exact Or.inr (Or.inr (keyInIdx_of_inner hm ⟨q, h2, hq2⟩))
      · exact Or.inr (Or.inr h1)
    | some w0 =>
      rw [addW_some_some o i w hm hw] at h
      rcases keyInIdx_insertA h with h1 | h1 | h1
      · exact Or.inl h1
      · obtain ⟨q, hq, hq2⟩ := h1
        rcases mem_insertA hq with h2 | h2
        · subst h2; exact Or.inr (Or.inl hq2.symm)
        · exact Or.inr (Or.inr (keyInIdx_of_inner hm ⟨q, h2, hq2⟩))
      · exact Or.inr (Or.inr h1)

theorem keyInIdx_setW {x o i : ID} {w : Wgt} {m : Idx}
    (h : keyInIdx x (setW o i w m)) : x = o ∨ x = i ∨ keyInIdx x m := by
  cases hm : lookupA o m with
  | none =>
    rw [setW_none o i w hm] at h
    rcases keyInIdx_insertA h with h1 | h1 | h1
    · exact Or.inl h1
    · obtain ⟨q, hq, hq2⟩ := h1
      simp at hq
      subst hq
      exact Or.inr (Or.inl hq2.symm)
    · exact Or.inr (Or.inr h1)
  | some im =>
    rw [setW_some o i w hm] at h
    rcases keyInIdx_insertA h with h1 | h1 | h1
    · exact Or.inl h1
    · obtain ⟨q, hq, hq2⟩ := h1
      rcases mem_insertA hq with h2 | h2
      · subst h2; exact Or.inr (Or.inl hq2.symm)
      · exact Or.inr (Or.inr (keyInIdx_of_inner hm ⟨q, h2, hq2⟩))
    · exact Or.inr (Or.inr h1)

theorem keyInIdx_delW {x o i : ID} {m : Idx}
    (h : keyInIdx x (delW o i m)) : keyInIdx x m := by
  cases hm : lookupA o m with
  | none => rwa [delW_none o i hm] at h
  | some im =>
    cases hw : lookupA i im with
    | none => rwa [delW_some_none o i hm hw] at h
    | some w0 =>
      rw [delW_some_some o i hm hw] at h
      rcases keyInIdx_insertA h with h1 | h1 | h1
      · subst h1; exact keyInIdx_of_outer hm
      · obtain ⟨q, hq, hq2⟩ := h1
        obtain ⟨hq3, _⟩ := mem_eraseA hq
        exact keyInIdx_of_inner hm ⟨q, hq3, hq2⟩
      · exact h1

theorem keyInIdx_purge {x i : ID} {m : Idx} (h : keyInIdx x (purge i m)) :
    keyInIdx x m ∧ x ≠ i := by
  obtain ⟨p, hp, hx⟩ := h
  rw [purge, List.mem_map] at hp
  obtain ⟨p0, hp0, hpe⟩ := hp
  obtain ⟨hp0m, hp0ne⟩ := mem_eraseA hp0
  rcases hx with hx | hx
  · refine ⟨⟨p0, hp0m, Or.inl ?_⟩, ?_⟩
    · rw [← hpe] at hx; exact hx
    · rw [← hx, ← hpe]; exact hp0ne
  · obtain ⟨q, hq, hq2⟩ := hx
    rw [← hpe] at hq
    simp only at hq
    obtain ⟨hq3, hq4⟩ := mem_eraseA hq
    refine ⟨⟨p0, hp0m, Or.inr ⟨q, hq3, hq2⟩⟩, ?_⟩
    rw [← hq2]; exact hq4

theorem KeyClosed_NewGraph : KeyClosed NewGraph := by
  intro x hx
  rcases hx with hx | hx <;>
  · obtain ⟨p, hp, _⟩ := hx
    simp [NewGraph] at hp

theorem KeyClosed_addNode {g : Graph} (h : KeyClosed g) (nd : Node) :
    KeyClosed ((g.AddNode nd).1) := by
  cases he : g.IdExist nd.GetId with
  | true => rw [AddNode_dup he]; exact h
  | false =>
    rw [AddNode_new he]
    intro x hx
    have h2 := h x hx
    unfold Graph.IdExist at h2 ⊢
    exact isSome_lookupA_insertA nd.GetId nd h2

theorem KeyClosed_deleteNode {g : Graph} (h : KeyClosed g) (i : ID) :
    KeyClosed ((g.DeleteNode i).1) := by
  cases he : g.IdExist i with
  | false => rw [DeleteNode_absent he]; exact h
  | true =>
    rw [DeleteNode_present he]
    intro x hx
    have hxm : (keyInIdx x g.nodeTargets ∨ keyInIdx x g.nodeSources) ∧ x ≠ i := by
      rcases hx with hx | hx
      · obtain ⟨h1, h2⟩ := keyInIdx_purge hx
        exact ⟨Or.inl h1, h2⟩
      · obtain ⟨h1, h2⟩ := keyInIdx_purge hx
        exact ⟨Or.inr h1, h2⟩
    have h2 := h x hxm.1
    unfold Graph.IdExist at h2 ⊢
    rw [show ({ nodeList := eraseA i g.nodeList,
                nodeSources := purge i g.nodeSources,
                nodeTargets := purge i g.nodeTargets } : Graph).nodeList
          = eraseA i g.nodeList from rfl, lookupA_eraseA_ne hxm.2]
    exact h2

theorem KeyClosed_addEdge {g : Graph} (h : KeyClosed g) (u v : ID) (w : Wgt) :
    KeyClosed ((g.AddEdge u v w).1) := by
  cases hu : g.IdExist u with
  | false => rw [AddEdge_err1 v w hu]; exact h
  | true =>
    cases hv : g.IdExist v with
    | false => rw [AddEdge_err2 w hu hv]; exact h
    | true =>
      rw [AddEdge_ok w hu hv]
      intro x hx
      rcases hx with hx | hx
      · rcases keyInIdx_addW hx with h1 | h1 | h1
        · subst h1; exact hv
        · subst h1; exact hu
        · exact h x (Or.inl h1)
      · rcases keyInIdx_addW hx with h1 | h1 | h1
        · subst h1; exact hu
        · subst h1; exact hv
        · exact h x (Or.inr h1)

theorem KeyClosed_replaceEdge {g : Graph} (h : KeyClosed g) (u v : ID)
    (w : Wgt) : KeyClosed ((g.ReplaceEdge u v w).1) := by
  cases hu : g.IdExist u with
  | false => rw [ReplaceEdge_err1 v w hu]; exact h
  | true =>
    cases hv : g.IdExist v with
    | false => rw [ReplaceEdge_err2 w hu hv]; exact h
    | true =>
      rw [ReplaceEdge_ok w hu hv]
      intro x hx
      rcases hx with hx | hx
      · rcases keyInIdx_setW hx with h1 | h1 | h1
        · subst h1; exact hv
        · subst h1; exact hu
        · exact h x (Or.inl h1)
      · rcases keyInIdx_setW hx with h1 | h1 | h1
        · subst h1; exact hu
        · subst h1; exact hv
        · exact h x (Or.inr h1)

theorem KeyClosed_deleteEdge {g : Graph} (h : KeyClosed g) (u v : ID) :
    KeyClosed ((g.DeleteEdge u v).1) := by
  cases hu : g.IdExist u with
  | false => rw [DeleteEdge_err1 v hu]; exact h
  | true =>
    cases hv : g.IdExist v with
    | false => rw [DeleteEdge_err2 hu hv]; exact h
    | true =>
      rw [DeleteEdge_ok hu hv]
      intro x hx
      rcases hx with hx | hx
      · exact h x (Or.inl (keyInIdx_delW hx))
      · exact h x (Or.inr (keyInIdx_delW hx))

theorem KeyClosed_step {g : Graph} (h : KeyClosed g) (op : Op) :
    KeyClosed (g.step op) := by
  cases op with
  | init =>
    intro x hx
    rcases hx with hx | hx <;>
    · obtain ⟨p, hp, _⟩ := hx
      simp [Graph.step, Graph.Init] at hp
  | addNode nd => exact KeyClosed_addNode h nd
  | deleteNode i => exact KeyClosed_deleteNode h i
  | addEdge u v w => exact KeyClosed_addEdge h u v w
  | replaceEdge u v w => exact KeyClosed_replaceEdge h u v w
  | deleteEdge u v => exact KeyClosed_deleteEdge h u v

theorem Reachable_KeyClosed {g : Graph} (h : Reachable g) : KeyClosed g := by
  induction h with
  | new => exact KeyClosed_NewGraph
  | step h2 op ih => exact KeyClosed_step ih op

/-! ### State after a successful DeleteNode -/

theorem not_mem_keys_eraseA {α : Type} (i : ID) (l : List (ID × α)) :
    i ∉ (eraseA i l).map Prod.fst := by
  intro h
  rw [List.mem_map] at h
  obtain ⟨q, hq, hq2⟩ := h
  exact (mem_eraseA hq).2 hq2

theorem DeleteNode_GetNodes {g : Graph} {i : ID}
    (h : (g.DeleteNode i).2 = true) :
    lookupA i (g.DeleteNode i).1.GetNodes = none := by
  cases he : g.IdExist i with
  | false => rw [DeleteNode_absent he] at h; simp at h
  | true =>
    rw [DeleteNode_present he]
    exact lookupA_eraseA_self i g.nodeList

theorem DeleteNode_IdExist {g : Graph} {i : ID}
    (h : (g.DeleteNode i).2 = true) :
    (g.DeleteNode i).1.IdExist i = false := by
  have h2 := DeleteNode_GetNodes h
  unfold Graph.GetNodes at h2
  unfold Graph.IdExist
  rw [h2]
  rfl

theorem DeleteNode_GetSources {g : Graph} {i : ID}
    (h : (g.DeleteNode i).2 = true) (x : ID) :
    i ∉ ((g.DeleteNode i).1.GetSources x).1.map Prod.fst := by
  cases he : g.IdExist i with
  | false => rw [DeleteNode_absent he] at h; simp at h
  | true =>
    rw [DeleteNode_present he]
    unfold Graph.GetSources
    by_cases hx : ({ nodeList := eraseA i g.nodeList,
                     nodeSources := purge i g.nodeSources,
                     nodeTargets := purge i g.nodeTargets } : Graph).IdExist x
    · simp only [hx]
      cases hm : lookupA x (purge i g.nodeSources) with
      | none => simp
      | some sm =>
        unfold purge at hm
        rw [lookupA_mapval] at hm
        cases hm2 : lookupA x (eraseA i g.nodeSources) with
        | none => rw [hm2] at hm; simp at hm
        | some sm0 =>
          rw [hm2] at hm
          simp at hm
          subst hm
          simp only [Bool.not_true, Bool.false_eq_true, if_false,
            List.map_map]
          intro hmem
          rw [List.mem_map] at hmem
          obtain ⟨q, hq, hq2⟩ := hmem
          exact (mem_eraseA hq).2 hq2
    · simp only [Bool.not_eq_true] at hx
      simp [hx]

theorem DeleteNode_GetTargets {g : Graph} {i : ID}
    (h : (g.DeleteNode i).2 = true) (x : ID) :
    i ∉ ((g.DeleteNode i).1.GetTargets x).1.map Prod.fst := by
  cases he : g.IdExist i with
  | false => rw [DeleteNode_absent he] at h; simp at h
  | true =>
    rw [DeleteNode_present he]
    unfold Graph.GetTargets
    by_cases hx : ({ nodeList := eraseA i g.nodeList,
                     nodeSources := purge i g.nodeSources,
                     nodeTargets := purge i g.nodeTargets } : Graph).IdExist x
    · simp only [hx]
      cases hm : lookupA x (purge i g.nodeTargets) with
      | none => simp
      | some tm =>
        unfold purge at hm
        rw [lookupA_mapval] at hm
        cases hm2 : lookupA x (eraseA i g.nodeTargets) with
        | none => rw [hm2] at hm; simp at hm
        | some tm0 =>
          rw [hm2] at hm
          simp at hm
          subst hm
          simp only [Bool.not_true, Bool.false_eq_true, if_false,
            List.map_map]
          intro hmem
          rw [List.mem_map] at hmem
          obtain ⟨q, hq, hq2⟩ := hmem
          exact (mem_eraseA hq).2 hq2
    · simp only [Bool.not_eq_true] at hx
      simp [hx]

/-! ### Accumulation over repeated AddEdge calls (claim C2) -/

theorem AddEdges_nil (g : Graph) (u v : ID) : g.AddEdges u v [] = g := rfl

theorem AddEdges_cons (g : Graph) (u v : ID) (w : Wgt) (ws : List Wgt) :
    g.AddEdges u v (w :: ws) = ((g.AddEdge u v w).1).AddEdges u v ws := rfl

theorem AddEdges_nodeList (g : Graph) (u v : ID) (ws : List Wgt) :
    (g.AddEdges u v ws).nodeList = g.nodeList := by
  induction ws generalizing g with
  | nil => rfl
  | cons w ws ih =>
    rw [AddEdges_cons, ih, AddEdge_nodeList]

theorem AddEdges_IdExist (g : Graph) (u v : ID) (ws : List Wgt) (x : ID) :
    (g.AddEdges u v ws).IdExist x = g.IdExist x := by
  unfold Graph.IdExist
  rw [AddEdges_nodeList]

theorem AddEdges_sources {g : Graph} {u v : ID} (hu : g.IdExist u = true)
    (hv : g.IdExist v = true) {c : Wgt}
    (hc : lookup2 u v g.nodeSources = some c) (ws : List Wgt) :
    lookup2 u v (g.AddEdges u v ws).nodeSources = some (c + ws.sum) := by
  induction ws generalizing g c with
  | nil => simpa [AddEdges_nil] using hc
  | cons w ws ih =>
    rw [AddEdges_cons]
    have hu2 : (g.AddEdge u v w).1.IdExist u = true := by
      rw [AddEdge_IdExist]; exact hu
    have hv2 : (g.AddEdge u v w).1.IdExist v = true := by
      rw [AddEdge_IdExist]; exact hv
    have step1 : lookup2 u v ((g.AddEdge u v w).1).nodeSources = some (c + w) := by
      rw [AddEdge_ok w hu hv]
      simp only [lookup2_addW]
      simp [hc]
    rw [ih hu2 hv2 step1]
    rw [List.sum_cons]
    ring_nf

theorem AddEdges_sum {g : Graph} {u v : ID} (hu : g.IdExist u = true)
    (hv : g.IdExist v = true) (hs : lookup2 u v g.nodeSources = none)
    (w0 : Wgt) (ws : List Wgt) :
    lookup2 u v (g.AddEdges u v (w0 :: ws)).nodeSources =
      some ((w0 :: ws).sum) := by
  rw [AddEdges_cons]
  have hu2 : (g.AddEdge u v w0).1.IdExist u = true := by
    rw [AddEdge_IdExist]; exact hu
  have hv2 : (g.AddEdge u v w0).1.IdExist v = true := by
    rw [AddEdge_IdExist]; exact hv
  have step1 : lookup2 u v ((g.AddEdge u v w0).1).nodeSources = some w0 := by
    rw [AddEdge_ok w0 hu hv]
    simp only [lookup2_addW]
    simp [hs]
  rw [AddEdges_sources hu2 hv2 step1 ws, List.sum_cons]

/-! ### Remaining helper lemmas -/

theorem lookupA_of_IdExist_false {g : Graph} {i : ID}
    (h : g.IdExist i = false) : lookupA i g.nodeList = none := by
  unfold Graph.IdExist at h
  cases hm : lookupA i g.nodeList with
  | none => rfl
  | some nd => rw [hm] at h; simp at h

theorem delW_of_lookup2_none {o i : ID} {m : Idx}
    (h : lookup2 o i m = none) : delW o i m = m := by
  unfold lookup2 at h
  cases hm : lookupA o m with
  | none => exact delW_none o i hm
  | some im =>
    rw [hm] at h
    simp only at h
    exact delW_some_none o i hm h

theorem mem_GetTargets {g : Graph} {x y : ID} (hx : g.IdExist x = true)
    (hw : lookup2 x y g.nodeTargets ≠ none) :
    y ∈ (g.GetTargets x).1.map Prod.fst := by
  unfold Graph.GetTargets
  unfold lookup2 at hw
  cases hm : lookupA x g.nodeTargets with
  | none => rw [hm] at hw; simp at hw
  | some tm =>
    rw [hm] at hw
    simp only at hw
    cases hv2 : lookupA y tm with
    | none => exact absurd hv2 hw
    | some w0 =>
      simp only [hx, Bool.not_true, Bool.false_eq_true, if_false,
        List.map_map]
      have hmem : y ∈ tm.map Prod.fst := keys_of_lookupA_some hv2
      simpa [Function.comp] using hmem

theorem mem_GetSources {g : Graph} {x y : ID} (hx : g.IdExist x = true)
    (hw : lookup2 x y g.nodeSources ≠ none) :
    y ∈ (g.GetSources x).1.map Prod.fst := by
  unfold Graph.GetSources
  unfold lookup2 at hw
  cases hm : lookupA x g.nodeSources with
  | none => rw [hm] at hw; simp at hw
  | some sm =>
    rw [hm] at hw
    simp only at hw
    cases hv2 : lookupA y sm with
    | none => exact absurd hv2 hw
    | some w0 =>
      simp only [hx, Bool.not_true, Bool.false_eq_true, if_false,
        List.map_map]
      have hmem : y ∈ sm.map Prod.fst := keys_of_lookupA_some hv2
      simpa [Function.comp] using hmem

/-! ### The claims -/

/-- C1 counterexample: on the store with nodes a and b and no edges, the
call AddEdge("a", "b", 1) returns no error, yet GetTargets("a") does not
contain b and GetSources("b") does not contain a, contrary to the claim
that the first argument is the edge source whose targets grow. -/
theorem AddEdge_first_arg_not_source :
    (gAB.AddEdge "a" "b" 1).2 = none ∧
    "b" ∉ ((gAB.AddEdge "a" "b" 1).1.GetTargets "a").1.map Prod.fst ∧
    "a" ∉ ((gAB.AddEdge "a" "b" 1).1.GetSources "b").1.map Prod.fst := by
  decide

/-- C1, amended: for every two nodes u and v present in the store and every
weight w, after a call AddEdge(u, v, w) that returns no error, it is
GetTargets(v) whose keys include u and GetSources(u) whose keys include v:
the source treats its second argument pid as the edge source and its first
argument id as the edge target, as its own weight-lookup error message and
its upstream/downstream doc comments state. -/
theorem AddEdge_registers_mirrored_neighbors (g : Graph) (u v : ID)
    (w : Wgt) (hu : g.IdExist u = true) (hv : g.IdExist v = true) :
    (g.AddEdge u v w).2 = none ∧
    u ∈ ((g.AddEdge u v w).1.GetTargets v).1.map Prod.fst ∧
    v ∈ ((g.AddEdge u v w).1.GetSources u).1.map Prod.fst := by
  have hv2 : (g.AddEdge u v w).1.IdExist v = true := by
    rw [AddEdge_IdExist]; exact hv
  have hu2 : (g.AddEdge u v w).1.IdExist u = true := by
    rw [AddEdge_IdExist]; exact hu
  have htg : lookup2 v u (g.AddEdge u v w).1.nodeTargets ≠ none := by
    rw [AddEdge_ok w hu hv]
    simp only [lookup2_addW]
    simp
  have hsc : lookup2 u v (g.AddEdge u v w).1.nodeSources ≠ none := by
    rw [AddEdge_ok w hu hv]
    simp only [lookup2_addW]
    simp
  refine ⟨?_, mem_GetTargets hv2 htg, mem_GetSources hu2 hsc⟩
  rw [AddEdge_ok w hu hv]

/-- C1 witness: the amended statement at the concrete store gAB. -/
theorem AddEdge_registers_mirrored_neighbors_witness :
    (gAB.AddEdge "a" "b" 1).2 = none ∧
    "a" ∈ ((gAB.AddEdge "a" "b" 1).1.GetTargets "b").1.map Prod.fst ∧
    "b" ∈ ((gAB.AddEdge "a" "b" 1).1.GetSources "a").1.map Prod.fst :=
  AddEdge_registers_mirrored_neighbors gAB "a" "b" 1 (by decide) (by decide)

/-- C2: for nodes u and v present in the store with no edge recorded for
the ordered pair in either index, after the successive successful calls
AddEdge(u, v, w0), AddEdge(u, v, w1), ... GetWeight(u, v) returns exactly
the sum of the weights with no error; a subsequent successful
ReplaceEdge(u, v, w) makes GetWeight(u, v) return exactly w. -/
theorem GetWeight_sums_addEdges_and_replace_overwrites (g : Graph)
    (u v : ID) (hu : g.IdExist u = true) (hv : g.IdExist v = true)
    (hs : lookup2 u v g.nodeSources = none)
    (ht : lookup2 v u g.nodeTargets = none)
    (w0 : Wgt) (ws : List Wgt) (w : Wgt) :
    (g.AddEdges u v (w0 :: ws)).GetWeight u v = ((w0 :: ws).sum, none) ∧
    ((g.AddEdges u v (w0 :: ws)).ReplaceEdge u v w).2 = none ∧
    ((g.AddEdges u v (w0 :: ws)).ReplaceEdge u v w).1.GetWeight u v
      = (w, none) := by
  have hu2 : (g.AddEdges u v (w0 :: ws)).IdExist u = true := by
    rw [AddEdges_IdExist]; exact hu
  have hv2 : (g.AddEdges u v (w0 :: ws)).IdExist v = true := by
    rw [AddEdges_IdExist]; exact hv
  have hsum := AddEdges_sum hu hv hs w0 ws
  have hu3 : ((g.AddEdges u v (w0 :: ws)).ReplaceEdge u v w).1.IdExist u
      = true := by
    rw [ReplaceEdge_IdExist]; exact hu2
  have hv3 : ((g.AddEdges u v (w0 :: ws)).ReplaceEdge u v w).1.IdExist v
      = true := by
    rw [ReplaceEdge_IdExist]; exact hv2
  have hs3 : lookup2 u v
      ((g.AddEdges u v (w0 :: ws)).ReplaceEdge u v w).1.nodeSources
      = some w := by
    rw [ReplaceEdge_ok w hu2 hv2]
    simp only [lookup2_setW]
    simp
  refine ⟨GetWeight_found hu2 hv2 hsum, ?_, GetWeight_found hu3 hv3 hs3⟩
  rw [ReplaceEdge_ok w hu2 hv2]

/-- C2 witness: on the store with nodes a and b, AddEdge(a, b, 5) then
AddEdge(a, b, 3) make GetWeight(a, b) the sum, and ReplaceEdge(a, b, 1)
then makes it 1. -/
theorem GetWeight_sums_addEdges_and_replace_overwrites_witness :
    (gAB.AddEdges "a" "b" (5 :: [3])).GetWeight "a" "b"
      = ((5 :: [3] : List Wgt).sum, none) ∧
    ((gAB.AddEdges "a" "b" (5 :: [3])).ReplaceEdge "a" "b" 1).2 = none ∧
    ((gAB.AddEdges "a" "b" (5 :: [3])).ReplaceEdge "a" "b" 1).1.GetWeight
      "a" "b" = (1, none) :=
  GetWeight_sums_addEdges_and_replace_overwrites gAB "a" "b" (by decide)
    (by decide) (by decide) (by decide) 5 [3] 1

/-- C3: in every state reachable by public operations from a fresh store,
the targets index holds weight w for the pair (a, b) exactly when the
sources index holds weight w for the mirrored pair (b, a); in particular
neither index records a pair-weight entry the other lacks. -/
theorem indices_mirror_of_reachable (g : Graph) (h : Reachable g)
    (a b : ID) (w : Wgt) :
    lookup2 a b g.nodeTargets = some w ↔
      lookup2 b a g.nodeSources = some w := by
  rw [Reachable_Mirror h a b]

/-- C3 witness: the mirror equivalence at the reachable store gABe5step and
the recorded pair, in both directions. -/
theorem indices_mirror_of_reachable_witness :
    (lookup2 "b" "a" gABe5step.nodeTargets = some 5 ↔
      lookup2 "a" "b" gABe5step.nodeSources = some 5) :=
  indices_mirror_of_reachable gABe5step
    (Reachable.step (Reachable.step (Reachable.step Reachable.new
      (Op.addNode ⟨"a"⟩)) (Op.addNode ⟨"b"⟩)) (Op.addEdge "a" "b" 5))
    "b" "a" 5

/-- C4: in every reachable state, every id occurring as an outer or inner
key of either adjacency index is a key of the node map; and whenever
DeleteNode(i) returns true, i is gone from GetNodes, absent from every
GetSources and GetTargets result, and every GetWeight call involving i
fails with a node-not-found error. -/
theorem index_keys_closed_and_delete_cascades (g : Graph)
    (h : Reachable g) :
    KeyClosed g ∧
    ∀ i, (g.DeleteNode i).2 = true →
      lookupA i (g.DeleteNode i).1.GetNodes = none ∧
      (∀ x, i ∉ ((g.DeleteNode i).1.GetSources x).1.map Prod.fst ∧
            i ∉ ((g.DeleteNode i).1.GetTargets x).1.map Prod.fst) ∧
      (∀ x, (∃ y, ((g.DeleteNode i).1.GetWeight i x).2
                = some (GErr.nodeNotFound y)) ∧
            (∃ y, ((g.DeleteNode i).1.GetWeight x i).2
                = some (GErr.nodeNotFound y))) := by
  refine ⟨Reachable_KeyClosed h, ?_⟩
  intro i hdel
  have hnf : (g.DeleteNode i).1.IdExist i = false := DeleteNode_IdExist hdel
  refine ⟨DeleteNode_GetNodes hdel,
    fun x => ⟨DeleteNode_GetSources hdel x, DeleteNode_GetTargets hdel x⟩,
    fun x => ⟨⟨i, ?_⟩, ?_⟩⟩
  · rw [GetWeight_err1 x hnf]
  · cases hx : (g.DeleteNode i).1.IdExist x with
    | false => exact ⟨x, by rw [GetWeight_err1 i hx]⟩
    | true => exact ⟨i, by rw [GetWeight_err2 hx hnf]⟩

/-- C4 witness: at the reachable store gABe2step, the inner key a of the
targets index is a node, and after DeleteNode("b") the node b is gone from
the node map and from GetTargets("a"), and GetWeight("a", "b") fails with
a node-not-found error. -/
theorem index_keys_closed_and_delete_cascades_witness :
    gABe2step.IdExist "a" = true ∧
    lookupA "b" (gABe2step.DeleteNode "b").1.GetNodes = none ∧
    "b" ∉ ((gABe2step.DeleteNode "b").1.GetTargets "a").1.map Prod.fst ∧
    (∃ y, ((gABe2step.DeleteNode "b").1.GetWeight "a" "b").2
        = some (GErr.nodeNotFound y)) := by
  have H := index_keys_closed_and_delete_cascades gABe2step
    (Reachable.step (Reachable.step (Reachable.step Reachable.new
      (Op.addNode ⟨"a"⟩)) (Op.addNode ⟨"b"⟩)) (Op.addEdge "a" "b" 2))
  have H2 := H.2 "b" (by decide)
  exact ⟨H.1 "a" (Or.inl (by decide)), H2.1, (H2.2.1 "a").2,
    ((H2.2.2 "a").2)⟩

/-- C5: evaluation of the serializer at the failing input.  On the store
gJSON (nodes a, b, c; AddEdge(a, b, 12) then AddEdge(a, c, 7)), JSON emits
a single entry for a whose inner map is keyed b for the first neighbor but
keyed a — the outer identity itself — for the second, losing the key c,
instead of being keyed by the neighbor identity for every neighbor as the
claim requires. -/
theorem JSON_self_key_defect :
    gJSON.JSON = [("a", [("b", 12), ("a", 7)])] := by
  decide

/-- C6: GetWeight fails with a node-not-found error naming the absent node
when either argument is missing, checking the first argument before the
second; when both nodes exist it fails with the edge-not-found error
exactly when no weight is recorded for the ordered argument pair, and
returns the recorded weight with no error otherwise; and no other
error-returning operation ever produces an edge-not-found error. -/
theorem GetWeight_error_taxonomy (g : Graph) (id pid : ID) :
    (g.IdExist id = false →
       g.GetWeight id pid = (0, some (.nodeNotFound id))) ∧
    (g.IdExist id = true → g.IdExist pid = false →
       g.GetWeight id pid = (0, some (.nodeNotFound pid))) ∧
    (g.IdExist id = true → g.IdExist pid = true →
       ((g.GetWeight id pid).2 = some (.edgeNotFound pid id) ↔
          lookup2 id pid g.nodeSources = none) ∧
       (∀ w, lookup2 id pid g.nodeSources = some w →
          g.GetWeight id pid = (w, none))) ∧
    (∀ w e, (g.AddEdge id pid w).2 = some e → e.isNodeNotFound = true) ∧
    (∀ w e, (g.ReplaceEdge id pid w).2 = some e →
       e.isNodeNotFound = true) ∧
    (∀ e, (g.DeleteEdge id pid).2 = some e → e.isNodeNotFound = true) ∧
    (∀ e, (g.GetSources id).2 = some e → e.isNodeNotFound = true) ∧
    (∀ e, (g.GetTargets id).2 = some e → e.isNodeNotFound = true) := by
  refine ⟨fun h1 => GetWeight_err1 pid h1,
    fun h1 h2 => GetWeight_err2 h1 h2, fun h1 h2 => ⟨?_, ?_⟩,
    ?_, ?_, ?_, ?_, ?_⟩
  · constructor
    · intro he
      cases hw : lookup2 id pid g.nodeSources with
      | none => rfl
      | some w => rw [GetWeight_found h1 h2 hw] at he; simp at he
    · intro hw
      rw [GetWeight_noEdge h1 h2 hw]
  · intro w hw
    exact GetWeight_found h1 h2 hw
  · intro w e he
    cases hu : g.IdExist id with
    | false =>
      rw [AddEdge_err1 pid w hu] at he
      simp at he
      rw [← he]
      rfl
    | true =>
      cases hv : g.IdExist pid with
      | false =>
        rw [AddEdge_err2 w hu hv] at he
        simp at he
        rw [← he]
        rfl
      | true => rw [AddEdge_ok w hu hv] at he; simp at he
  · intro w e he
    cases hu : g.IdExist id with
    | false =>
      rw [ReplaceEdge_err1 pid w hu] at he
      simp at he
      rw [← he]
      rfl
    | true =>
      cases hv : g.IdExist pid with
      | false =>
        rw [ReplaceEdge_err2 w hu hv] at he
        simp at he
        rw [← he]
        rfl
      | true => rw [ReplaceEdge_ok w hu hv] at he; simp at he
  · intro e he
    cases hu : g.IdExist id with
    | false =>
      rw [DeleteEdge_err1 pid hu] at he
      simp at he
      rw [← he]
      rfl
    | true =>
      cases hv : g.IdExist pid with
      | false =>
        rw [DeleteEdge_err2 hu hv] at he
        simp at he
        rw [← he]
        rfl
      | true => rw [DeleteEdge_ok hu hv] at he; simp at he
  · intro e he
    unfold Graph.GetSources at he
    cases hu : g.IdExist id with
    | false =>
      simp only [hu] at he
      simp at he
      rw [← he]
      rfl
    | true =>
      simp only [hu] at he
      cases hm : lookupA id g.nodeSources with
      | none => rw [hm] at he; simp at he
      | some sm => rw [hm] at he; simp at he
  · intro e he
    unfold Graph.GetTargets at he
    cases hu : g.IdExist id with
    | false =>
      simp only [hu] at he
      simp at he
      rw [← he]
      rfl
    | true =>
      simp only [hu] at he
      cases hm : lookupA id g.nodeTargets with
      | none => rw [hm] at he; simp at he
      | some tm => rw [hm] at he; simp at he

/-- C6 witness: the taxonomy at the concrete store gABe5, exercising the
missing-first-argument, missing-second-argument, weight-found and
edge-not-found branches. -/
theorem GetWeight_error_taxonomy_witness :
    gABe5.GetWeight "x" "b" = (0, some (.nodeNotFound "x")) ∧
    gABe5.GetWeight "a" "x" = (0, some (.nodeNotFound "x")) ∧
    gABe5.GetWeight "a" "b" = (5, none) ∧
    (gABe5.GetWeight "b" "a").2 = some (.edgeNotFound "a" "b") := by
  have H1 := GetWeight_error_taxonomy gABe5 "x" "b"
  have H2 := GetWeight_error_taxonomy gABe5 "a" "x"
  have H3 := GetWeight_error_taxonomy gABe5 "a" "b"
  have H4 := GetWeight_error_taxonomy gABe5 "b" "a"
  exact ⟨H1.1 (by decide), H2.2.1 (by decide) (by decide),
    (H3.2.2.1 (by decide) (by decide)).2 5 (by decide),
    ((H4.2.2.1 (by decide) (by decide)).1).mpr (by decide)⟩

/-- C7: AddNode on a store already holding a node with the same id returns
false and the whole store, node entry, count and indices included, is the
unchanged original; on a fresh id it inserts the node keyed by its id,
returns true, increases the node count by exactly one and leaves both
indices untouched. -/
theorem AddNode_dup_noop_fresh_inserts (g : Graph) (nd : Node) :
    (g.IdExist nd.GetId = true → g.AddNode nd = (g, false)) ∧
    (g.IdExist nd.GetId = false →
       (g.AddNode nd).2 = true ∧
       lookupA nd.GetId (g.AddNode nd).1.nodeList = some nd ∧
       (g.AddNode nd).1.GetNodeCount = g.GetNodeCount + 1 ∧
       (g.AddNode nd).1.nodeSources = g.nodeSources ∧
       (g.AddNode nd).1.nodeTargets = g.nodeTargets) := by
  constructor
  · exact AddNode_dup
  · intro h
    have hnone : lookupA nd.GetId g.nodeList = none := by
      unfold Graph.IdExist at h
      cases hm : lookupA nd.GetId g.nodeList with
      | none => rfl
      | some x => rw [hm] at h; simp at h
    rw [AddNode_new h]
    exact ⟨rfl, lookupA_insertA_self nd.GetId nd g.nodeList,
      length_insertA_of_none hnone nd, rfl, rfl⟩

/-- C7 witness: on the one-node store gA, re-adding a is rejected without
change and adding b inserts it, raising the count from 1 to 2. -/
theorem AddNode_dup_noop_fresh_inserts_witness :
    gA.AddNode ⟨"a"⟩ = (gA, false) ∧
    (gA.AddNode ⟨"b"⟩).2 = true ∧
    (gA.AddNode ⟨"b"⟩).1.GetNodeCount = gA.GetNodeCount + 1 := by
  have H1 := AddNode_dup_noop_fresh_inserts gA ⟨"a"⟩
  have H2 := AddNode_dup_noop_fresh_inserts gA ⟨"b"⟩
  exact ⟨H1.1 (by decide), (H2.2 (by decide)).1,
    (H2.2 (by decide)).2.2.1⟩

/-- C8: DeleteEdge on two present nodes with no weight recorded for the
argument pair in either index returns no error and the resulting store is
the unchanged original. -/
theorem DeleteEdge_missing_edge_noop (g : Graph) (u v : ID)
    (hu : g.IdExist u = true) (hv : g.IdExist v = true)
    (ht : lookup2 v u g.nodeTargets = none)
    (hs : lookup2 u v g.nodeSources = none) :
    g.DeleteEdge u v = (g, none) := by
  rw [DeleteEdge_ok hu hv, delW_of_lookup2_none ht,
    delW_of_lookup2_none hs]

/-- C8 witness: on the two-node edgeless store gAB, DeleteEdge(a, b) is the
identity with no error. -/
theorem DeleteEdge_missing_edge_noop_witness :
    gAB.DeleteEdge "a" "b" = (gAB, none) :=
  DeleteEdge_missing_edge_noop gAB "a" "b" (by decide) (by decide)
    (by decide) (by decide)

/-- C9: evaluation of the per-method lock behavior.  Init, the reset
operation, performs no lock operation on the mutex, while every other
mutating method of the source acquires the exclusive lock on entry and
releases it at return, contrary to the claim that all six mutators hold
the exclusive lock for their full duration. -/
theorem Init_takes_no_lock :
    lockTrace Op.init = [] ∧
    (∀ nd, lockTrace (Op.addNode nd)
        = [LockEv.acquireW, LockEv.releaseW]) ∧
    (∀ i, lockTrace (Op.deleteNode i)
        = [LockEv.acquireW, LockEv.releaseW]) ∧
    (∀ u v w, lockTrace (Op.addEdge u v w)
        = [LockEv.acquireW, LockEv.releaseW]) ∧
    (∀ u v w, lockTrace (Op.replaceEdge u v w)
        = [LockEv.acquireW, LockEv.releaseW]) ∧
    (∀ u v, lockTrace (Op.deleteEdge u v)
        = [LockEv.acquireW, LockEv.releaseW]) :=
  ⟨rfl, fun _ => rfl, fun _ => rfl, fun _ _ _ => rfl, fun _ _ _ => rfl,
    fun _ _ => rfl⟩

/-- C10: a successful AddEdge, ReplaceEdge or DeleteEdge call with
arguments (u, v) leaves the node map unchanged, leaves the recorded weight
of every ordered pair other than (u, v) unchanged in the sources index,
and leaves every ordered pair other than the mirrored (v, u) — the slot
where this code records the pair (u, v) — unchanged in the targets
index. -/
theorem edge_ops_frame (g : Graph) (u v : ID) (w : Wgt) :
    ((g.AddEdge u v w).2 = none →
       (g.AddEdge u v w).1.nodeList = g.nodeList ∧
       (∀ a b, ¬(a = u ∧ b = v) →
          lookup2 a b (g.AddEdge u v w).1.nodeSources
            = lookup2 a b g.nodeSources) ∧
       (∀ a b, ¬(a = v ∧ b = u) →
          lookup2 a b (g.AddEdge u v w).1.nodeTargets
            = lookup2 a b g.nodeTargets)) ∧
    ((g.ReplaceEdge u v w).2 = none →
       (g.ReplaceEdge u v w).1.nodeList = g.nodeList ∧
       (∀ a b, ¬(a = u ∧ b = v) →
          lookup2 a b (g.ReplaceEdge u v w).1.nodeSources
            = lookup2 a b g.nodeSources) ∧
       (∀ a b, ¬(a = v ∧ b = u) →
          lookup2 a b (g.ReplaceEdge u v w).1.nodeTargets
            = lookup2 a b g.nodeTargets)) ∧
    ((g.DeleteEdge u v).2 = none →
       (g.DeleteEdge u v).1.nodeList = g.nodeList ∧
       (∀ a b, ¬(a = u ∧ b = v) →
          lookup2 a b (g.DeleteEdge u v).1.nodeSources
            = lookup2 a b g.nodeSources) ∧
       (∀ a b, ¬(a = v ∧ b = u) →
          lookup2 a b (g.DeleteEdge u v).1.nodeTargets
            = lookup2 a b g.nodeTargets)) := by
  refine ⟨?_, ?_, ?_⟩
  · intro h
    obtain ⟨hu, hv⟩ := (AddEdge_ok_iff g u v w).mp h
    rw [AddEdge_ok w hu hv]
    refine ⟨rfl, ?_, ?_⟩
    · intro a b hab
      simp only [lookup2_addW]
      rw [if_neg hab]
    · intro a b hab
      simp only [lookup2_addW]
      rw [if_neg hab]
  · intro h
    obtain ⟨hu, hv⟩ := (ReplaceEdge_ok_iff g u v w).mp h
    rw [ReplaceEdge_ok w hu hv]
    refine ⟨rfl, ?_, ?_⟩
    · intro a b hab
      simp only [lookup2_setW]
      rw [if_neg hab]
    · intro a b hab
      simp only [lookup2_setW]
      rw [if_neg hab]
  · intro h
    obtain ⟨hu, hv⟩ := (DeleteEdge_ok_iff g u v).mp h
    rw [DeleteEdge_ok hu hv]
    refine ⟨rfl, ?_, ?_⟩
    · intro a b hab
      simp only [lookup2_delW]
      rw [if_neg hab]
    · intro a b hab
      simp only [lookup2_delW]
      rw [if_neg hab]

/-- C10 witness: on the three-node store gABC, AddEdge(a, b, 5) leaves the
node map and the weight slot of the other pair (a, c) unchanged. -/
theorem edge_ops_frame_witness :
    (gABC.AddEdge "a" "b" 5).1.nodeList = gABC.nodeList ∧
    lookup2 "a" "c" (gABC.AddEdge "a" "b" 5).1.nodeSources
      = lookup2 "a" "c" gABC.nodeSources := by
  have H := (edge_ops_frame gABC "a" "b" 5).1 (by decide)
  exact ⟨H.1, H.2.1 "a" "c" (by decide)⟩

end Kraph
